import Mathlib

/-!
Shallow embedding of the `voicetyping` dictation utility (`voice_typer.py`):
hotkey normalization, language-code normalization, configuration
load/save, the audio recorder's start/stop protocol, the transcriber
factory, and the orchestrating toggle/transcribe state machine.
Strings are modelled as `List Char` internally, with `String` wrappers.
-/

namespace VoiceTyper

/-- ASCII lowercasing of one character, as Python's `str.lower` acts on the
ASCII range (the only range the program compares against). -/
def lowerChar (c : Char) : Char :=
  if 65 ≤ c.toNat ∧ c.toNat ≤ 90 then Char.ofNat (c.toNat + 32) else c

/-- `str.lower` on a whole string. -/
def lowerStr (s : List Char) : List Char := s.map lowerChar

/-- ASCII whitespace, as stripped by Python's `str.strip()`. -/
def isPySpace (c : Char) : Bool := c.toNat = 32 || (9 ≤ c.toNat && c.toNat ≤ 13)

/-- Python `str.strip()`: drop leading and trailing whitespace. -/
def pyStrip (s : List Char) : List Char :=
  ((s.dropWhile isPySpace).reverse.dropWhile isPySpace).reverse

/-- Python `hotkey.split("+")`: split at every `'+'`, keeping empty pieces. -/
def pySplitPlus : List Char → List (List Char)
  | [] => [[]]
  | c :: rest =>
    if c = '+' then [] :: pySplitPlus rest
    else
      match pySplitPlus rest with
      | [] => [[c]]
      | t :: ts => (c :: t) :: ts

/-- Python `"+".join(parts)`. -/
def joinPlus : List (List Char) → List Char
  | [] => []
  | [t] => t
  | t :: ts => t ++ '+' :: joinPlus ts

/-- The `token_map` dictionary of `normalize_hotkey`, as a total lookup with
the key itself as fallback (`token_map.get(raw, raw)`). -/
def tokenMap (raw : List Char) : List Char :=
  if raw = "ctrl".data then "<ctrl>".data
  else if raw = "control".data then "<ctrl>".data
  else if raw = "alt".data then "<alt>".data
  else if raw = "option".data then "<alt>".data
  else if raw = "shift".data then "<shift>".data
  else if raw = "cmd".data then "<cmd>".data
  else if raw = "command".data then "<cmd>".data
  else if raw = "win".data then "<cmd>".data
  else if raw = "windows".data then "<cmd>".data
  else raw

/-- Body of the per-token loop of `normalize_hotkey`: lowercase the token,
pass it through when it is bracketed, otherwise look it up in `token_map`. -/
def normToken (part : List Char) : List Char :=
  let raw := lowerStr part
  if raw.head? = some '<' ∧ raw.getLast? = some '>' then raw
  else tokenMap raw

/-- `normalize_hotkey` on character lists: split on `'+'`, strip each part,
drop empty parts, fail (`ValueError("Hotkey is leeg.")`) when nothing
remains, else normalize each token and re-join with `'+'`. -/
def normalizeHotkeyChars (hotkey : List Char) : Option (List Char) :=
  let parts := ((pySplitPlus hotkey).map pyStrip).filter (fun p => ¬ p.isEmpty)
  if parts.isEmpty then none
  else some (joinPlus (parts.map normToken))

/-- `normalize_hotkey` on `String`; `none` models the raised `ValueError`. -/
def normalize_hotkey (hotkey : String) : Option String :=
  (normalizeHotkeyChars hotkey.data).map (fun l => String.mk l)

/-- `normalize_google_language` on character lists: a code containing `'-'`
is returned unchanged; otherwise the five-entry default table is consulted
with the lowercased code, falling back to the original code. -/
def normalizeGoogleChars (language : List Char) : List Char :=
  if language.contains '-' then language
  else
    let low := lowerStr language
    if low = "nl".data then "nl-NL".data
    else if low = "en".data then "en-US".data
    else if low = "de".data then "de-DE".data
    else if low = "fr".data then "fr-FR".data
    else if low = "es".data then "es-ES".data
    else language

/-- `normalize_google_language` on `String`. -/
def normalize_google_language (language : String) : String :=
  String.mk (normalizeGoogleChars language.data)

/-- `normalize_assemblyai_language`: strip the region from a qualified
locale code (`language.split("-", maxsplit=1)[0]`). -/
def normalizeAssemblyChars (language : List Char) : List Char :=
  if language.contains '-' then language.takeWhile (fun c => ¬ c = '-')
  else language

/-- `normalize_assemblyai_language` on `String`. -/
def normalize_assemblyai_language (language : String) : String :=
  String.mk (normalizeAssemblyChars language.data)

/-! ### Configuration: `AppConfig`, `_as_bool` / `_as_int` / `_as_str`,
`load_config`, `save_config` -/

/-- The `AppConfig` dataclass with its field defaults. -/
structure AppConfig where
  engine : String := "whisper"
  hotkey : String := "<ctrl>+<alt>+d"
  language : String := "nl"
  sample_rate : Int := 16000
  append_space : Bool := true
  whisper_model : String := "small"
  whisper_device : String := "auto"
  whisper_compute_type : String := "int8"
  assemblyai_api_key : String := ""
  google_credentials_path : String := ""
  gemini_api_key : String := ""
  deriving Repr, DecidableEq

/-- A scalar value as produced by `tomllib` for the value kinds the saved
config file can contain (basic strings, integers, booleans). -/
inductive TomlValue where
  | str (s : String)
  | int (n : Int)
  | bool (b : Bool)
  deriving Repr, DecidableEq

/-- Accumulating decimal-digit reader; `none` on any non-digit character. -/
def digitsVal (acc : Nat) : List Char → Option Nat
  | [] => some acc
  | c :: rest =>
    if 48 ≤ c.toNat ∧ c.toNat ≤ 57 then digitsVal (acc * 10 + (c.toNat - 48)) rest
    else none

/-- Python `int(str)`: strip whitespace, optional sign, decimal digits;
`none` models the raised `ValueError`. -/
def parsePyInt (s : List Char) : Option Int :=
  match pyStrip s with
  | '+' :: ds => if ds.isEmpty then none else (digitsVal 0 ds).map (fun n => (n : Int))
  | '-' :: ds => if ds.isEmpty then none else (digitsVal 0 ds).map (fun n => -(n : Int))
  | ds => if ds.isEmpty then none else (digitsVal 0 ds).map (fun n => (n : Int))

/-- The truthy strings of `_as_bool`. -/
def truthyStrings : List (List Char) :=
  ["1".data, "true".data, "yes".data, "y".data, "on".data]

/-- `_as_bool(value, default)`: a bool is itself, a number is its
truthiness, a string is tested (stripped, lowercased) against the truthy
set, and an absent value yields the default. -/
def as_bool (value : Option TomlValue) (dflt : Bool) : Bool :=
  match value with
  | some (.bool b) => b
  | some (.int n) => ¬ n = 0
  | some (.str s) => lowerStr (pyStrip s.data) ∈ truthyStrings
  | none => dflt

/-- `_as_int(value, default)`: `int(value)` when that succeeds
(`int(bool)` is 0/1, `int(str)` parses), else the default. -/
def as_int (value : Option TomlValue) (dflt : Int) : Int :=
  match value with
  | some (.int n) => n
  | some (.bool b) => if b then 1 else 0
  | some (.str s) =>
    match parsePyInt s.data with
    | some n => n
    | none => dflt
  | none => dflt

/-- Decimal digit characters of a natural, most significant first, with
explicit fuel so the definition reduces; `natDigits` supplies enough fuel. -/
def natDigitsAux : Nat → Nat → List Char
  | _, 0 => []
  | 0, _ + 1 => []
  | fuel + 1, n + 1 =>
    natDigitsAux fuel ((n + 1) / 10) ++ [Char.ofNat (48 + (n + 1) % 10)]

/-- Decimal digit characters of a natural, most significant first
(empty for zero; `intRepr` handles zero separately). -/
def natDigits (n : Nat) : List Char := natDigitsAux n n

/-- Python `str(int)`: canonical decimal representation. -/
def intRepr (n : Int) : List Char :=
  if n = 0 then "0".data
  else if n < 0 then '-' :: natDigits n.natAbs
  else natDigits n.natAbs

/-- `_as_str(value, default)`: `None` yields the default, anything else is
`str(value)`. -/
def as_str (value : Option TomlValue) (dflt : String) : String :=
  match value with
  | some (.str s) => s
  | some (.int n) => String.mk (intRepr n)
  | some (.bool b) => if b then "True" else "False"
  | none => dflt

/-- `data.get(key)` on the parsed key–value table. -/
def tomlGet (data : List (String × TomlValue)) (key : String) : Option TomlValue :=
  (data.find? (fun kv => kv.1 = key)).map (fun kv => kv.2)

/-- The `AppConfig()` of all field defaults. -/
def defaultConfig : AppConfig := {}

/-- `load_config`: `none` models a missing file (return the defaults);
`some data` models the `tomllib.load` result, from which each field is
read with its per-field conversion and default (the engine lowercased). -/
def load_config (file : Option (List (String × TomlValue))) : AppConfig :=
  match file with
  | none => defaultConfig
  | some data =>
    { engine := String.mk (lowerStr (as_str (tomlGet data "engine") defaultConfig.engine).data)
      hotkey := as_str (tomlGet data "hotkey") defaultConfig.hotkey
      language := as_str (tomlGet data "language") defaultConfig.language
      sample_rate := as_int (tomlGet data "sample_rate") defaultConfig.sample_rate
      append_space := as_bool (tomlGet data "append_space") defaultConfig.append_space
      whisper_model := as_str (tomlGet data "whisper_model") defaultConfig.whisper_model
      whisper_device := as_str (tomlGet data "whisper_device") defaultConfig.whisper_device
      whisper_compute_type := as_str (tomlGet data "whisper_compute_type") defaultConfig.whisper_compute_type
      assemblyai_api_key := as_str (tomlGet data "assemblyai_api_key") ""
      google_credentials_path := as_str (tomlGet data "google_credentials_path") ""
      gemini_api_key := as_str (tomlGet data "gemini_api_key") "" }

/-- One character's escaped form under the `quote` helper of
`save_config`: backslash and double quote are escaped, all else is kept. -/
def escSave (c : Char) : List Char :=
  if c = '\\' then ['\\', '\\']
  else if c = '"' then ['\\', '"']
  else [c]

/-- The `quote` helper of `save_config`: escape backslash and double quote,
then wrap in double quotes. -/
def quoteValue (s : List Char) : List Char :=
  '"' :: s.flatMap escSave ++ ['"']

/-- `save_config`, at the granularity the round-trip needs: the list of
`key = value` lines it writes, each as its key and raw value text. -/
def save_config (c : AppConfig) : List (String × List Char) :=
  [("engine", quoteValue c.engine.data),
   ("hotkey", quoteValue c.hotkey.data),
   ("language", quoteValue c.language.data),
   ("sample_rate", intRepr c.sample_rate),
   ("append_space", if c.append_space then "true".data else "false".data),
   ("whisper_model", quoteValue c.whisper_model.data),
   ("whisper_device", quoteValue c.whisper_device.data),
   ("whisper_compute_type", quoteValue c.whisper_compute_type.data),
   ("assemblyai_api_key", quoteValue c.assemblyai_api_key.data),
   ("google_credentials_path", quoteValue c.google_credentials_path.data),
   ("gemini_api_key", quoteValue c.gemini_api_key.data)]

/-- A control character `tomllib` refuses inside a basic string
(U+0000–U+0008, U+000A–U+001F except tab stays raw-illegal, and U+007F). -/
def badControl (c : Char) : Bool :=
  (c.toNat < 32 && ¬ c.toNat = 9) || c.toNat = 127

/-- A string `tomllib` accepts verbatim inside a basic string once
backslash and quote are escaped: no forbidden control characters. -/
def tomlSafe (s : String) : Bool := s.data.all (fun c => ¬ badControl c)

/-- All string fields of a config are free of forbidden control
characters, so `save_config` writes a file `tomllib` can read back. -/
def configSafe (c : AppConfig) : Bool :=
  tomlSafe c.engine && tomlSafe c.hotkey && tomlSafe c.language &&
  tomlSafe c.whisper_model && tomlSafe c.whisper_device && tomlSafe c.whisper_compute_type &&
  tomlSafe c.assemblyai_api_key && tomlSafe c.google_credentials_path && tomlSafe c.gemini_api_key

/-- The single-character escapes of a TOML basic string (the `\uXXXX`
forms are left out: `save_config` never emits them). -/
def escChar? (c : Char) : Option Char :=
  if c = '\\' then some '\\'
  else if c = '"' then some '"'
  else if c = 'b' then some (Char.ofNat 8)
  else if c = 't' then some (Char.ofNat 9)
  else if c = 'n' then some (Char.ofNat 10)
  else if c = 'f' then some (Char.ofNat 12)
  else if c = 'r' then some (Char.ofNat 13)
  else none

/-- `tomllib`'s reading of a basic-string body after the opening quote:
ends at the closing quote (which must end the value), resolves escapes,
and refuses raw control characters; `none` models `TOMLDecodeError`. -/
def parseBasicBody : List Char → Option (List Char)
  | [] => none
  | c :: rest =>
    if c = '"' then (if rest.isEmpty then some [] else none)
    else if c = '\\' then
      match rest with
      | [] => none
      | e :: rest2 =>
        match escChar? e with
        | some c2 => (parseBasicBody rest2).map (fun l => c2 :: l)
        | none => none
    else if badControl c then none
    else (parseBasicBody rest).map (fun l => c :: l)

/-- A TOML integer token (sign and digits; `save_config` emits only the
canonical form, on which this agrees with `tomllib`). -/
def parseTomlInt (s : List Char) : Option Int :=
  match s with
  | [] => none
  | c :: ds =>
    if c = '+' then (if ds.isEmpty then none else (digitsVal 0 ds).map (fun n => (n : Int)))
    else if c = '-' then (if ds.isEmpty then none else (digitsVal 0 ds).map (fun n => -(n : Int)))
    else (digitsVal 0 (c :: ds)).map (fun n => (n : Int))

/-- `tomllib`'s reading of one saved value text: a quoted basic string, a
boolean literal, or an integer. -/
def parseTomlValue (v : List Char) : Option TomlValue :=
  match v with
  | [] => none
  | c :: body =>
    if c = '"' then (parseBasicBody body).map (fun l => TomlValue.str (String.mk l))
    else if c :: body = "true".data then some (.bool true)
    else if c :: body = "false".data then some (.bool false)
    else (parseTomlInt (c :: body)).map .int

/-- Parse every written line's value; any failure fails the whole file,
as `tomllib.load` raises on the first malformed value. -/
def parseSavedLines (lines : List (String × List Char)) :
    Option (List (String × TomlValue)) :=
  lines.mapM (fun kv => (parseTomlValue kv.2).map (fun v => (kv.1, v)))

/-- `load_config` applied to the file `save_config` wrote: `none` when the
written file does not parse back. -/
def loadSavedConfig (c : AppConfig) : Option AppConfig :=
  (parseSavedLines (save_config c)).map (fun data => load_config (some data))

/-! ### `AudioRecorder` -/

/-- The mutable fields of `AudioRecorder`: the configured sample rate, the
stream handle (`_stream is not None`), and the accumulated frame chunks. -/
structure RecState where
  sampleRate : Int
  streamOpen : Bool
  frames : List (List Int)
  deriving Repr, DecidableEq

/-- The recorder's failure modes (`RuntimeError`s in the source), plus the
stream-open failure of the audio device itself. -/
inductive RecError where
  | alreadyRecording
  | notRecording
  | noAudioCaptured
  | deviceError
  deriving Repr, DecidableEq

namespace AudioRecorder

/-- `AudioRecorder.start`: fail if a stream is open; otherwise clear the
frame buffer and open the stream (`deviceOk` models whether
`sd.InputStream(...)` succeeds — on failure the buffer is already cleared
and the stream stays closed). -/
def start (st : RecState) (deviceOk : Bool) : Except RecError Unit × RecState :=
  if st.streamOpen then (.error .alreadyRecording, st)
  else if deviceOk then (.ok (), { st with streamOpen := true, frames := [] })
  else (.error .deviceError, { st with frames := [] })

/-- `AudioRecorder.stop`: fail if no stream is open; otherwise close and
clear the stream handle first, then fail if no frames were accumulated,
else return the concatenated audio data. -/
def stop (st : RecState) : Except RecError (List Int) × RecState :=
  if st.streamOpen then
    let st' := { st with streamOpen := false }
    if st.frames.isEmpty then (.error .noAudioCaptured, st')
    else (.ok st.frames.flatten, st')
  else (.error .notRecording, st)

/-- `AudioRecorder._callback`: append one chunk to the buffer; only the
open stream delivers callbacks. -/
def callback (st : RecState) (chunk : List Int) : RecState :=
  if st.streamOpen then { st with frames := st.frames ++ [chunk] } else st

end AudioRecorder

/-! ### Transcriber factory -/

/-- The process environment the transcriber constructors consult:
`os.getenv` fallbacks for the API keys and availability of the optional
imports. -/
structure Env where
  assemblyaiKeyEnv : String := ""
  geminiKeyEnv : String := ""
  hasFasterWhisper : Bool := true
  hasRequests : Bool := true
  hasGoogleSpeech : Bool := true
  hasGenai : Bool := true
  deriving Repr, DecidableEq

/-- Construction-time failures: the `ValueError` for an unknown engine and
the `RuntimeError`s for a missing dependency or missing API key. -/
inductive VTError where
  | invalidEngine
  | missingDependency (package : String)
  | missingKey (hint : String)
  deriving Repr, DecidableEq

/-- The four transcriber variants with the fields their constructors
derive from the config. -/
inductive Transcriber where
  | whisper (model device computeType : String) (language : Option String)
  | assemblyai (apiKey language : String)
  | google (credentialsPath : String) (sampleRate : Int) (language : String)
  | gemini (apiKey language : String)
  deriving Repr, DecidableEq

/-- The engine name a constructed variant corresponds to. -/
def Transcriber.engineTag : Transcriber → String
  | .whisper .. => "whisper"
  | .assemblyai .. => "assemblyai"
  | .google .. => "google"
  | .gemini .. => "gemini"

/-- `WhisperTranscriber.__init__`: needs `faster_whisper`; keeps the model
settings and `config.language or None`. -/
def WhisperTranscriber.init (c : AppConfig) (env : Env) : Except VTError Transcriber :=
  if env.hasFasterWhisper then
    .ok (.whisper c.whisper_model c.whisper_device c.whisper_compute_type
      (if c.language = "" then none else some c.language))
  else .error (.missingDependency "faster-whisper")

/-- `AssemblyAITranscriber.__init__`: needs `requests`; the key comes from
the config or the `ASSEMBLYAI_API_KEY` environment variable, and its
absence is fatal; the language is `config.language or "nl"` with the
region stripped. -/
def AssemblyAITranscriber.init (c : AppConfig) (env : Env) : Except VTError Transcriber :=
  if env.hasRequests then
    let key := if c.assemblyai_api_key = "" then env.assemblyaiKeyEnv else c.assemblyai_api_key
    if key = "" then .error (.missingKey "assemblyai_api_key")
    else
      .ok (.assemblyai key
        (normalize_assemblyai_language (if c.language = "" then "nl" else c.language)))
  else .error (.missingDependency "requests")

/-- `GoogleTranscriber.__init__`: needs `google.cloud.speech`; keeps the
credentials path and sample rate; the language is
`normalize_google_language(config.language or "nl-NL")`. -/
def GoogleTranscriber.init (c : AppConfig) (env : Env) : Except VTError Transcriber :=
  if env.hasGoogleSpeech then
    .ok (.google c.google_credentials_path c.sample_rate
      (normalize_google_language (if c.language = "" then "nl-NL" else c.language)))
  else .error (.missingDependency "google-cloud-speech")

/-- `GeminiTranscriber.__init__`: needs `google.generativeai`; the key
comes from the config or `GEMINI_API_KEY`, and its absence is fatal; the
language is `config.language or "nl"`. -/
def GeminiTranscriber.init (c : AppConfig) (env : Env) : Except VTError Transcriber :=
  if env.hasGenai then
    let key := if c.gemini_api_key = "" then env.geminiKeyEnv else c.gemini_api_key
    if key = "" then .error (.missingKey "gemini_api_key")
    else .ok (.gemini key (if c.language = "" then "nl" else c.language))
  else .error (.missingDependency "google-generativeai")

/-- `create_transcriber`: dispatch on the exact engine string, in source
order, with `ValueError` (invalid engine) for anything unrecognized. -/
def create_transcriber (c : AppConfig) (env : Env) : Except VTError Transcriber :=
  if c.engine = "whisper" then WhisperTranscriber.init c env
  else if c.engine = "assemblyai" then AssemblyAITranscriber.init c env
  else if c.engine = "google" then GoogleTranscriber.init c env
  else if c.engine = "gemini" then GeminiTranscriber.init c env
  else .error .invalidEngine

/-! ### `VoiceTyperApp`: toggle and the background transcription task -/

/-- The orchestrator's state: the recorder, the two flags guarded by
`_lock`, the artifact files on disk, the dispatched (still running)
background tasks, and a counter supplying fresh artifact paths
(`tempfile.mkstemp`). `typed` records every string the typer emitted. -/
structure AppState where
  recorder : RecState
  isRecording : Bool
  isBusy : Bool
  files : List Nat
  tasks : List Nat
  nextId : Nat
  typed : List String
  deriving Repr, DecidableEq

/-- The app state right after `VoiceTyperApp.__init__`. -/
def initialState (sampleRate : Int) : AppState :=
  { recorder := { sampleRate := sampleRate, streamOpen := false, frames := [] }
    isRecording := false
    isBusy := false
    files := []
    tasks := []
    nextId := 0
    typed := [] }

/-- `VoiceTyperApp.toggle_recording`, with the operator messages it
prints. Busy: report and return. Not recording: try to start (a failure
leaves the flags alone). Recording: try to stop (a failure just clears
the recording flag); on success a fresh artifact is written, the busy
flag is set, and the background task is dispatched with the artifact. -/
def toggle_recording (st : AppState) (deviceOk : Bool) : AppState × List String :=
  if st.isBusy then (st, ["Nog bezig met de vorige transcriptie."])
  else if st.isRecording then
    match AudioRecorder.stop st.recorder with
    | (.error _, rec') =>
      ({ st with recorder := rec', isRecording := false }, ["Kon opname niet stoppen"])
    | (.ok _, rec') =>
      ({ st with
          recorder := rec'
          isRecording := false
          isBusy := true
          files := st.files ++ [st.nextId]
          tasks := st.tasks ++ [st.nextId]
          nextId := st.nextId + 1 },
       ["Transcriberen..."])
  else
    match AudioRecorder.start st.recorder deviceOk with
    | (.error _, rec') => ({ st with recorder := rec' }, ["Kon opname niet starten"])
    | (.ok _, rec') =>
      ({ st with recorder := rec', isRecording := true }, ["Opname gestart..."])

/-- Outcome of the `transcribe` call inside the background task: the
returned text, or a raised backend exception. -/
inductive TResult where
  | text (t : String)
  | failure (msg : String)
  deriving Repr, DecidableEq

/-- `VoiceTyperApp._transcribe_and_type` for one artifact: strip the
result text; empty text is only reported; otherwise the text (plus an
optional trailing space) is typed when typing succeeds; every exception
is caught and reported; the `finally` block always deletes the artifact
and clears the busy flag. -/
def transcribe_and_type (cfg : AppConfig) (st : AppState) (artifact : Nat)
    (result : TResult) (typeOk : Bool) : AppState × List String :=
  let step : List String × List String :=
    match result with
    | .failure msg => (["Transcriptie mislukt: " ++ msg], st.typed)
    | .text raw =>
      let text := pyStrip raw.data
      if text.isEmpty then (["Geen tekst herkend."], st.typed)
      else
        let textToType := if cfg.append_space then text ++ [' '] else text
        if typeOk then
          (["Getypt: " ++ String.mk text], st.typed ++ [String.mk textToType])
        else (["Transcriptie mislukt: TypingError"], st.typed)
  ({ st with files := st.files.erase artifact, isBusy := false, typed := step.2 },
   step.1)

/-- The external happenings the app reacts to: a hotkey press (with the
device's cooperation as an oracle), an audio-callback chunk, and the
completion of a dispatched background task (with the transcriber's and
typer's outcomes as oracles). -/
inductive Event where
  | toggle (deviceOk : Bool)
  | chunk (c : List Int)
  | taskDone (artifact : Nat) (result : TResult) (typeOk : Bool)

/-- One event's effect on the app state. A `taskDone` for an artifact
that was never dispatched does nothing. -/
def applyEvent (cfg : AppConfig) (st : AppState) : Event → AppState
  | .toggle d => (toggle_recording st d).1
  | .chunk c => { st with recorder := AudioRecorder.callback st.recorder c }
  | .taskDone a r tOk =>
    if a ∈ st.tasks then
      let st' := (transcribe_and_type cfg st a r tOk).1
      { st' with tasks := st.tasks.erase a }
    else st

/-- Run a sequence of events from a state. -/
def runEvents (cfg : AppConfig) (st : AppState) (events : List Event) : AppState :=
  events.foldl (applyEvent cfg) st

/-- The state after the first toggle from the initial state, with the
device cooperating. -/
def afterStartToggle : AppState :=
  (toggle_recording (initialState 16000) true).1

/-- The state after one audio chunk has arrived while recording. -/
def afterChunk (chunk : List Int) : AppState :=
  { afterStartToggle with
    recorder := AudioRecorder.callback afterStartToggle.recorder chunk }

/-- The state after the second toggle, which stops the recording and
dispatches the artifact. -/
def afterStopToggle (chunk : List Int) : AppState :=
  (toggle_recording (afterChunk chunk) true).1

/-! ### Helper lemmas about characters and stripping -/

theorem char_toNat_ofNat (n : Nat) (h : n.isValidChar) : (Char.ofNat n).toNat = n := by
  simp [Char.ofNat, Char.toNat, Char.ofNatAux, h, UInt32.toNat, UInt32.ofNat']

theorem lowerChar_idem (c : Char) : lowerChar (lowerChar c) = lowerChar c := by
  unfold lowerChar
  by_cases h : 65 ≤ c.toNat ∧ c.toNat ≤ 90
  · rw [if_pos h]
    have ht : (Char.ofNat (c.toNat + 32)).toNat = c.toNat + 32 :=
      char_toNat_ofNat _ (Or.inl (by omega))
    rw [if_neg (by rw [ht]; omega)]
  · rw [if_neg h, if_neg h]

theorem lowerStr_idem (l : List Char) : lowerStr (lowerStr l) = lowerStr l := by
  induction l with
  | nil => rfl
  | cons c l ih =>
    simp only [lowerStr, List.map_cons] at ih ⊢
    rw [lowerChar_idem, ih]

theorem isPySpace_lowerChar (c : Char) : isPySpace (lowerChar c) = isPySpace c := by
  unfold lowerChar
  by_cases h : 65 ≤ c.toNat ∧ c.toNat ≤ 90
  · rw [if_pos h]
    have ht : (Char.ofNat (c.toNat + 32)).toNat = c.toNat + 32 :=
      char_toNat_ofNat _ (Or.inl (by omega))
    unfold isPySpace
    rw [ht]
    rw [Bool.eq_iff_iff]
    simp only [Bool.or_eq_true, Bool.and_eq_true, decide_eq_true_eq]
    omega
  · rw [if_neg h]

theorem lowerChar_eq_plus {c : Char} (h : lowerChar c = '+') : c = '+' := by
  unfold lowerChar at h
  split_ifs at h with hc
  · have ht : (Char.ofNat (c.toNat + 32)).toNat = c.toNat + 32 :=
      char_toNat_ofNat _ (Or.inl (by omega))
    have h43 : (Char.ofNat (c.toNat + 32)).toNat = (43 : Nat) := by rw [h]; rfl
    rw [ht] at h43
    omega
  · exact h

theorem head?_dropWhile_false {p : Char → Bool} {l : List Char} {c : Char}
    (h : (l.dropWhile p).head? = some c) : p c = false := by
  have h' := List.head?_dropWhile_not p l
  rw [h] at h'
  exact h'

theorem dropWhile_eq_self_of_head {p : Char → Bool} {l : List Char}
    (h : ∀ c, l.head? = some c → p c = false) : l.dropWhile p = l := by
  cases l with
  | nil => rfl
  | cons a l => rw [List.dropWhile_cons, if_neg (by simp [h a rfl])]

theorem getLast?_dropWhile {p : Char → Bool} {l : List Char} {c : Char}
    (h : (l.dropWhile p).getLast? = some c) : l.getLast? = some c := by
  conv_lhs => rw [← List.takeWhile_append_dropWhile p l]
  rw [List.getLast?_append, h]
  rfl

theorem pyStrip_head {l : List Char} {c : Char} (h : (pyStrip l).head? = some c) :
    isPySpace c = false := by
  unfold pyStrip at h
  rw [List.head?_reverse] at h
  have h1 := getLast?_dropWhile h
  rw [List.getLast?_reverse] at h1
  exact head?_dropWhile_false h1

theorem pyStrip_getLast {l : List Char} {c : Char} (h : (pyStrip l).getLast? = some c) :
    isPySpace c = false := by
  unfold pyStrip at h
  rw [List.getLast?_reverse] at h
  exact head?_dropWhile_false h

theorem pyStrip_fixed_of_ends {l : List Char}
    (h1 : ∀ c, l.head? = some c → isPySpace c = false)
    (h2 : ∀ c, l.getLast? = some c → isPySpace c = false) : pyStrip l = l := by
  unfold pyStrip
  rw [dropWhile_eq_self_of_head h1]
  rw [dropWhile_eq_self_of_head (fun c hc => h2 c (by rwa [List.head?_reverse] at hc))]
  exact List.reverse_reverse l

theorem pyStrip_idem (l : List Char) : pyStrip (pyStrip l) = pyStrip l :=
  pyStrip_fixed_of_ends (fun _ hc => pyStrip_head hc) (fun _ hc => pyStrip_getLast hc)

theorem pyStrip_lowerStr (l : List Char) : pyStrip (lowerStr l) = lowerStr (pyStrip l) := by
  unfold pyStrip lowerStr
  rw [List.dropWhile_map, ← List.map_reverse, List.dropWhile_map, ← List.map_reverse]
  have hp : (isPySpace ∘ lowerChar) = isPySpace := funext isPySpace_lowerChar
  rw [hp]

theorem mem_of_mem_pyStrip {c : Char} {l : List Char} (h : c ∈ pyStrip l) : c ∈ l := by
  unfold pyStrip at h
  rw [List.mem_reverse] at h
  have h1 := (List.dropWhile_sublist _).mem h
  rw [List.mem_reverse] at h1
  exact (List.dropWhile_sublist _).mem h1

/-! ### Claim theorems: language normalization (C9, C10) -/

/-- C9: `normalize_google_language` maps the locale-less code `"nl"` to
`"nl-NL"`, and returns any code already containing a `'-'` unchanged. -/
theorem google_language_locale_derivation :
    normalize_google_language "nl" = "nl-NL" ∧
    (∀ s : String, s.data.contains '-' = true → normalize_google_language s = s) := by
  constructor
  · decide
  · intro s h
    show String.mk (normalizeGoogleChars s.data) = s
    unfold normalizeGoogleChars
    rw [h]
    rfl

/-- Witness for C9 at the concrete qualified code `"en-GB"`. -/
theorem google_language_locale_derivation_witness :
    normalize_google_language "en-GB" = "en-GB" :=
  google_language_locale_derivation.2 "en-GB" (by decide)

/-- C10: a bare language code (no `'-'`) whose lowercase form is outside
the five-entry default table is returned unchanged by
`normalize_google_language`: no region expansion happens for it. -/
theorem google_language_unknown_passthrough (s : String)
    (hb : s.data.contains '-' = false)
    (hn : lowerStr s.data ∉
      (["nl".data, "en".data, "de".data, "fr".data, "es".data] : List (List Char))) :
    normalize_google_language s = s := by
  show String.mk (normalizeGoogleChars s.data) = s
  unfold normalizeGoogleChars
  rw [hb]
  simp only [List.mem_cons, not_or] at hn
  obtain ⟨g1, g2, g3, g4, g5, -⟩ := hn
  simp only [Bool.false_eq_true, if_false]
  rw [if_neg g1, if_neg g2, if_neg g3, if_neg g4, if_neg g5]

/-- Witness for C10 at the concrete bare code `"it"`. -/
theorem google_language_unknown_passthrough_witness :
    normalize_google_language "it" = "it" :=
  google_language_unknown_passthrough "it" (by decide) (by decide)

/-! ### Claim theorems: recorder (C7) and background task (C2) -/

/-- C7: `stop()` on an open stream with zero accumulated frame chunks
fails with `NoAudioCaptured`, the stream handle is closed and cleared by
that point, and a subsequent `start()` on the resulting state succeeds. -/
theorem stop_without_frames_recovers (sr : Int) :
    AudioRecorder.stop { sampleRate := sr, streamOpen := true, frames := [] } =
      (.error .noAudioCaptured, { sampleRate := sr, streamOpen := false, frames := [] }) ∧
    (AudioRecorder.start { sampleRate := sr, streamOpen := false, frames := [] } true).1 =
      .ok () :=
  ⟨rfl, rfl⟩

/-- C2: every execution of the background transcription task — whatever
the transcriber returned or raised and whether typing succeeded — deletes
the audio artifact and clears the busy flag. -/
theorem background_task_always_cleans_up (cfg : AppConfig) (st : AppState) (artifact : Nat)
    (result : TResult) (typeOk : Bool) :
    (transcribe_and_type cfg st artifact result typeOk).1.files = st.files.erase artifact ∧
    (transcribe_and_type cfg st artifact result typeOk).1.isBusy = false :=
  ⟨rfl, rfl⟩

/-! ### Claim theorem: the toggle scenario (C1) -/

/-- C1: from the idle initial state, with the device cooperating and one
audio chunk captured: the first toggle turns recording on; the second
turns it off, sets the busy flag, and dispatches the fresh artifact to the
background task; a third toggle while busy returns the state unchanged and
only reports busy. -/
theorem toggle_idle_record_transcribe_busy (chunk : List Int) (d : Bool) :
    afterStartToggle.isRecording = true ∧ afterStartToggle.isBusy = false ∧
    (afterStopToggle chunk).isRecording = false ∧ (afterStopToggle chunk).isBusy = true ∧
    (afterStopToggle chunk).tasks = [0] ∧ (afterStopToggle chunk).files = [0] ∧
    toggle_recording (afterStopToggle chunk) d =
      (afterStopToggle chunk, ["Nog bezig met de vorige transcriptie."]) :=
  ⟨rfl, rfl, rfl, rfl, rfl, rfl, rfl⟩

/-! ### Claim theorems: transcriber factory (C8) -/

theorem whisper_init_tag {c : AppConfig} {env : Env} {t : Transcriber}
    (h : WhisperTranscriber.init c env = .ok t) : t.engineTag = "whisper" := by
  unfold WhisperTranscriber.init at h
  split_ifs at h <;> (rw [← Except.ok.inj h]; rfl)

theorem assemblyai_init_tag {c : AppConfig} {env : Env} {t : Transcriber}
    (h : AssemblyAITranscriber.init c env = .ok t) : t.engineTag = "assemblyai" := by
  unfold AssemblyAITranscriber.init at h
  dsimp only at h
  split_ifs at h <;> (rw [← Except.ok.inj h]; rfl)

theorem google_init_tag {c : AppConfig} {env : Env} {t : Transcriber}
    (h : GoogleTranscriber.init c env = .ok t) : t.engineTag = "google" := by
  unfold GoogleTranscriber.init at h
  split_ifs at h <;> (rw [← Except.ok.inj h]; rfl)

theorem gemini_init_tag {c : AppConfig} {env : Env} {t : Transcriber}
    (h : GeminiTranscriber.init c env = .ok t) : t.engineTag = "gemini" := by
  unfold GeminiTranscriber.init at h
  dsimp only at h
  split_ifs at h <;> (rw [← Except.ok.inj h]; rfl)

/-- C8: `create_transcriber` fails with the invalid-engine error for every
engine string outside the four recognized names — no variant constructor
runs — and any successfully constructed variant is exactly the one the
configured engine names. -/
theorem create_transcriber_dispatch :
    (∀ (c : AppConfig) (env : Env),
      c.engine ∉ (["whisper", "assemblyai", "google", "gemini"] : List String) →
      create_transcriber c env = .error .invalidEngine) ∧
    (∀ (c : AppConfig) (env : Env) (t : Transcriber),
      create_transcriber c env = .ok t → t.engineTag = c.engine) := by
  constructor
  · intro c env h
    simp only [List.mem_cons, not_or] at h
    obtain ⟨h1, h2, h3, h4, -⟩ := h
    unfold create_transcriber
    rw [if_neg h1, if_neg h2, if_neg h3, if_neg h4]
  · intro c env t h
    unfold create_transcriber at h
    split_ifs at h with h1 h2 h3 h4
    · rw [h1]; exact whisper_init_tag h
    · rw [h2]; exact assemblyai_init_tag h
    · rw [h3]; exact google_init_tag h
    · rw [h4]; exact gemini_init_tag h

/-- Witness for C8: the unrecognized engine `"bogus"` fails, and the
default (whisper) config constructs the whisper variant. -/
theorem create_transcriber_dispatch_witness :
    create_transcriber { engine := "bogus" } {} = .error .invalidEngine ∧
    (Transcriber.whisper "small" "auto" "int8" (some "nl")).engineTag =
      defaultConfig.engine :=
  ⟨create_transcriber_dispatch.1 { engine := "bogus" } {} (by decide),
   create_transcriber_dispatch.2 defaultConfig {}
     (Transcriber.whisper "small" "auto" "int8" (some "nl")) (by rfl)⟩

/-! ### Claim theorems: single-flight invariant (C3) -/

theorem singleFlight_applyEvent (cfg : AppConfig) (st : AppState) (e : Event)
    (h : ¬ (st.isRecording = true ∧ st.isBusy = true)) :
    ¬ ((applyEvent cfg st e).isRecording = true ∧ (applyEvent cfg st e).isBusy = true) := by
  cases e with
  | toggle d =>
    show ¬ ((toggle_recording st d).1.isRecording = true ∧
            (toggle_recording st d).1.isBusy = true)
    unfold toggle_recording
    by_cases hb : st.isBusy = true
    · rw [if_pos hb]; exact h
    · rw [if_neg hb]
      by_cases hr : st.isRecording = true
      · rw [if_pos hr]
        rcases hstop : AudioRecorder.stop st.recorder with ⟨res, rec'⟩
        cases res <;> simp
      · rw [if_neg hr]
        rcases hstart : AudioRecorder.start st.recorder d with ⟨res, rec'⟩
        cases res <;> simp [hb, hr]
  | chunk c => exact h
  | taskDone a r tOk =>
    by_cases hm : a ∈ st.tasks
    · simp only [applyEvent, if_pos hm]
      simp [transcribe_and_type]
    · simp only [applyEvent, if_neg hm]
      exact h

/-- C3: along every event sequence from the initial state the recording
flag and the busy flag are never both set, and a toggle issued while the
busy flag is set leaves both flags unchanged. -/
theorem single_flight_invariant :
    (∀ (cfg : AppConfig) (sr : Int) (events : List Event),
      ¬ ((runEvents cfg (initialState sr) events).isRecording = true ∧
         (runEvents cfg (initialState sr) events).isBusy = true)) ∧
    (∀ (st : AppState) (d : Bool), st.isBusy = true →
      (toggle_recording st d).1.isRecording = st.isRecording ∧
      (toggle_recording st d).1.isBusy = st.isBusy) := by
  constructor
  · intro cfg sr events
    have main : ∀ (evs : List Event) (st : AppState),
        ¬ (st.isRecording = true ∧ st.isBusy = true) →
        ¬ ((runEvents cfg st evs).isRecording = true ∧
           (runEvents cfg st evs).isBusy = true) := by
      intro evs
      induction evs with
      | nil => intro st h; exact h
      | cons e evs ih => intro st h; exact ih _ (singleFlight_applyEvent cfg st e h)
    exact main events (initialState sr) (by simp [initialState])
  · intro st d h
    unfold toggle_recording
    rw [if_pos h]
    exact ⟨rfl, rfl⟩

/-- Witness for C3: a concrete two-toggle run and a concrete busy state. -/
theorem single_flight_invariant_witness :
    (¬ ((runEvents defaultConfig (initialState 16000)
          [.toggle true, .chunk [1], .toggle true]).isRecording = true ∧
        (runEvents defaultConfig (initialState 16000)
          [.toggle true, .chunk [1], .toggle true]).isBusy = true)) ∧
    ((toggle_recording { initialState 16000 with isBusy := true } true).1.isRecording =
       ({ initialState 16000 with isBusy := true } : AppState).isRecording ∧
     (toggle_recording { initialState 16000 with isBusy := true } true).1.isBusy =
       ({ initialState 16000 with isBusy := true } : AppState).isBusy) :=
  ⟨single_flight_invariant.1 defaultConfig 16000 [.toggle true, .chunk [1], .toggle true],
   single_flight_invariant.2 { initialState 16000 with isBusy := true } true rfl⟩

/-! ### Helper lemmas: splitting and joining on `'+'` -/

theorem pySplitPlus_no_plus {s t : List Char} (h : t ∈ pySplitPlus s) : '+' ∉ t := by
  induction s generalizing t with
  | nil =>
    simp only [pySplitPlus, List.mem_singleton] at h
    subst h
    simp
  | cons c rest ih =>
    simp only [pySplitPlus] at h
    by_cases hc : c = '+'
    · rw [if_pos hc] at h
      rcases List.mem_cons.mp h with h1 | h2
      · subst h1; simp
      · exact ih h2
    · rw [if_neg hc] at h
      rcases hsp : pySplitPlus rest with - | ⟨t', ts⟩
      · rw [hsp] at h
        simp only [List.mem_singleton] at h
        subst h
        intro hm
        simp only [List.mem_singleton] at hm
        exact hc hm.symm
      · rw [hsp] at h
        rcases List.mem_cons.mp h with h1 | h2
        · subst h1
          intro hm
          rcases List.mem_cons.mp hm with h3 | h4
          · exact hc h3.symm
          · exact ih (t := t') (by rw [hsp]; exact List.mem_cons_self _ _) h4
        · exact ih (by rw [hsp]; exact List.mem_cons_of_mem _ h2)

theorem pySplitPlus_append {a b t : List Char} {ts : List (List Char)}
    (ha : '+' ∉ a) (hb : pySplitPlus b = t :: ts) :
    pySplitPlus (a ++ b) = (a ++ t) :: ts := by
  induction a with
  | nil => simpa using hb
  | cons c a ih =>
    have hc : ¬ c = '+' := fun hcp => ha (by rw [hcp]; exact List.mem_cons_self _ _)
    have ha' : '+' ∉ a := fun hm => ha (List.mem_cons_of_mem _ hm)
    simp only [List.cons_append, pySplitPlus, if_neg hc, List.append_eq]
    rw [ih ha']

theorem pySplitPlus_joinPlus {ts : List (List Char)} (hne : ts ≠ [])
    (hp : ∀ t ∈ ts, '+' ∉ t) : pySplitPlus (joinPlus ts) = ts := by
  induction ts with
  | nil => exact absurd rfl hne
  | cons t ts ih =>
    cases ts with
    | nil =>
      have h0 : pySplitPlus ([] : List Char) = [[]] := rfl
      have h1 := pySplitPlus_append (b := []) (hp t (List.mem_cons_self _ _)) h0
      show pySplitPlus (joinPlus [t]) = [t]
      have h2 : joinPlus [t] = t ++ [] := (List.append_nil t).symm
      rw [h2, h1, List.append_nil]
    | cons t2 ts2 =>
      have hrec : pySplitPlus (joinPlus (t2 :: ts2)) = t2 :: ts2 :=
        ih (by simp) (fun u hu => hp u (List.mem_cons_of_mem _ hu))
      have hplus : pySplitPlus ('+' :: joinPlus (t2 :: ts2)) = [] :: t2 :: ts2 := by
        simp [pySplitPlus, hrec]
      have h1 := pySplitPlus_append (hp t (List.mem_cons_self _ _)) hplus
      show pySplitPlus (t ++ '+' :: joinPlus (t2 :: ts2)) = t :: t2 :: ts2
      rw [h1, List.append_nil]

/-! ### Helper lemmas: `normToken` -/

theorem lowerStr_mem_plus {l : List Char} (h : '+' ∈ lowerStr l) : '+' ∈ l := by
  unfold lowerStr at h
  rcases List.mem_map.mp h with ⟨c, hc, hlc⟩
  exact lowerChar_eq_plus hlc ▸ hc

theorem tokenMap_cases (raw : List Char) :
    tokenMap raw ∈
      (["<ctrl>".data, "<alt>".data, "<shift>".data, "<cmd>".data] : List (List Char)) ∨
    tokenMap raw = raw := by
  unfold tokenMap
  split_ifs <;> first | exact Or.inr rfl | exact Or.inl (by decide)

theorem normToken_cases (p : List Char) :
    normToken p = lowerStr p ∨
    normToken p ∈
      (["<ctrl>".data, "<alt>".data, "<shift>".data, "<cmd>".data] : List (List Char)) := by
  unfold normToken
  by_cases hbr : (lowerStr p).head? = some '<' ∧ (lowerStr p).getLast? = some '>'
  · rw [if_pos hbr]; exact Or.inl rfl
  · rw [if_neg hbr]
    rcases tokenMap_cases (lowerStr p) with hc | hself
    · exact Or.inr hc
    · exact Or.inl hself

theorem normToken_of_bracket {t : List Char} (hfix : lowerStr t = t)
    (h1 : t.head? = some '<') (h2 : t.getLast? = some '>') : normToken t = t := by
  unfold normToken
  rw [hfix, if_pos ⟨h1, h2⟩]

theorem normToken_bracket_lower {t : List Char}
    (h1 : t.head? = some '<') (h2 : t.getLast? = some '>') :
    normToken t = lowerStr t := by
  have hh : (lowerStr t).head? = some '<' := by
    unfold lowerStr
    rw [List.head?_map, h1]
    decide
  have hl : (lowerStr t).getLast? = some '>' := by
    unfold lowerStr
    rw [List.getLast?_map, h2]
    decide
  unfold normToken
  rw [if_pos ⟨hh, hl⟩]

theorem normToken_of_fallback {raw : List Char} (hfix : lowerStr raw = raw)
    (hbr : ¬ (raw.head? = some '<' ∧ raw.getLast? = some '>'))
    (hmap : tokenMap raw = raw) : normToken raw = raw := by
  unfold normToken
  rw [hfix, if_neg hbr, hmap]

theorem normToken_idem (p : List Char) : normToken (normToken p) = normToken p := by
  by_cases hbr : (lowerStr p).head? = some '<' ∧ (lowerStr p).getLast? = some '>'
  · have h1 : normToken p = lowerStr p := by unfold normToken; rw [if_pos hbr]
    rw [h1]
    exact normToken_of_bracket (lowerStr_idem p) hbr.1 hbr.2
  · have h1 : normToken p = tokenMap (lowerStr p) := by unfold normToken; rw [if_neg hbr]
    rcases tokenMap_cases (lowerStr p) with hc | hself
    · rw [h1]
      simp only [List.mem_cons, List.not_mem_nil, or_false] at hc
      rcases hc with h | h | h | h <;> rw [h] <;> decide
    · rw [h1, hself]
      exact normToken_of_fallback (lowerStr_idem p) hbr hself

theorem normToken_strip_fixed {p : List Char} (hp : pyStrip p = p) :
    pyStrip (normToken p) = normToken p := by
  rcases normToken_cases p with he | hc
  · rw [he, pyStrip_lowerStr, hp]
  · simp only [List.mem_cons, List.not_mem_nil, or_false] at hc
    rcases hc with h | h | h | h <;> rw [h] <;> decide

theorem normToken_ne_nil {p : List Char} (hp : p ≠ []) : normToken p ≠ [] := by
  rcases normToken_cases p with he | hc
  · rw [he]
    unfold lowerStr
    simpa [List.map_eq_nil_iff] using hp
  · simp only [List.mem_cons, List.not_mem_nil, or_false] at hc
    rcases hc with h | h | h | h <;> rw [h] <;> decide

theorem normToken_no_plus {p : List Char} (hp : '+' ∉ p) : '+' ∉ normToken p := by
  rcases normToken_cases p with he | hc
  · rw [he]
    intro hm
    exact hp (lowerStr_mem_plus hm)
  · simp only [List.mem_cons, List.not_mem_nil, or_false] at hc
    rcases hc with h | h | h | h <;> rw [h] <;> decide

/-! ### Idempotence of `normalize_hotkey` -/

theorem normalizeHotkeyChars_idem {s r : List Char}
    (h : normalizeHotkeyChars s = some r) : normalizeHotkeyChars r = some r := by
  unfold normalizeHotkeyChars at h ⊢
  by_cases hne : (((pySplitPlus s).map pyStrip).filter (fun p => ¬ p.isEmpty)).isEmpty
  · rw [if_pos hne] at h
    exact absurd h (by simp)
  · rw [if_neg hne] at h
    have hr : r =
        joinPlus ((((pySplitPlus s).map pyStrip).filter (fun p => ¬ p.isEmpty)).map normToken) :=
      (Option.some.inj h).symm
    have hmem : ∀ p ∈ ((pySplitPlus s).map pyStrip).filter (fun p => ¬ p.isEmpty),
        pyStrip p = p ∧ p ≠ [] ∧ '+' ∉ p := by
      intro p hp
      rcases List.mem_filter.mp hp with ⟨hp1, hp2⟩
      rcases List.mem_map.mp hp1 with ⟨q, hq, rfl⟩
      refine ⟨pyStrip_idem q, by simpa using hp2, ?_⟩
      intro hm
      exact (pySplitPlus_no_plus hq) (mem_of_mem_pyStrip hm)
    have htok : ∀ t ∈ (((pySplitPlus s).map pyStrip).filter (fun p => ¬ p.isEmpty)).map normToken,
        pyStrip t = t ∧ t ≠ [] ∧ '+' ∉ t ∧ normToken t = t := by
      intro t ht
      rcases List.mem_map.mp ht with ⟨p, hp, rfl⟩
      rcases hmem p hp with ⟨f1, f2, f3⟩
      exact ⟨normToken_strip_fixed f1, normToken_ne_nil f2, normToken_no_plus f3, normToken_idem p⟩
    have hts_ne : (((pySplitPlus s).map pyStrip).filter (fun p => ¬ p.isEmpty)).map normToken ≠ [] := by
      rw [Ne, List.map_eq_nil_iff]
      intro hx
      rw [hx] at hne
      exact hne rfl
    have hsplit : pySplitPlus r =
        (((pySplitPlus s).map pyStrip).filter (fun p => ¬ p.isEmpty)).map normToken := by
      rw [hr]
      exact pySplitPlus_joinPlus hts_ne (fun t ht => (htok t ht).2.2.1)
    have hstrip : (pySplitPlus r).map pyStrip =
        (((pySplitPlus s).map pyStrip).filter (fun p => ¬ p.isEmpty)).map normToken := by
      rw [hsplit]
      have := List.map_congr_left (l := (((pySplitPlus s).map pyStrip).filter
        (fun p => ¬ p.isEmpty)).map normToken) (f := pyStrip) (g := id)
        (fun t ht => (htok t ht).1)
      rw [this, List.map_id]
    have hfilter : ((pySplitPlus r).map pyStrip).filter (fun p => ¬ p.isEmpty) =
        (((pySplitPlus s).map pyStrip).filter (fun p => ¬ p.isEmpty)).map normToken := by
      rw [hstrip]
      apply List.filter_eq_self.mpr
      intro t ht
      simpa using (htok t ht).2.1
    rw [hfilter]
    rw [if_neg (by simpa [List.isEmpty_iff] using hts_ne)]
    have hmapmap : ((((pySplitPlus s).map pyStrip).filter (fun p => ¬ p.isEmpty)).map
        normToken).map normToken =
        (((pySplitPlus s).map pyStrip).filter (fun p => ¬ p.isEmpty)).map normToken := by
      have := List.map_congr_left (l := (((pySplitPlus s).map pyStrip).filter
        (fun p => ¬ p.isEmpty)).map normToken) (f := normToken) (g := id)
        (fun t ht => (htok t ht).2.2.2)
      rw [this, List.map_id]
    rw [hmapmap, ← hr]

/-! ### Claim theorems: hotkey normalization (C4) -/

/-- C4 counterexample: the already-bracketed token `"<A>"` does not pass
through `normalize_hotkey` unchanged — it comes out lowercased. -/
theorem bracketed_token_not_unchanged :
    normalize_hotkey "<A>" = some "<a>" ∧ normalize_hotkey "<A>" ≠ some "<A>" := by
  constructor <;> decide

/-- C4 (amended): every recognized modifier alias token maps to its single
canonical bracketed token; every bracketed token (starting `'<'`, ending
`'>'`) passes through lowercased — hence unchanged when already
lowercase — and `normalize_hotkey` is idempotent on its own output. -/
theorem normalize_hotkey_canonical_idempotent :
    (normToken "ctrl".data = "<ctrl>".data ∧ normToken "control".data = "<ctrl>".data ∧
     normToken "alt".data = "<alt>".data ∧ normToken "option".data = "<alt>".data ∧
     normToken "shift".data = "<shift>".data ∧ normToken "cmd".data = "<cmd>".data ∧
     normToken "command".data = "<cmd>".data ∧ normToken "win".data = "<cmd>".data ∧
     normToken "windows".data = "<cmd>".data) ∧
    (∀ t : List Char, t.head? = some '<' → t.getLast? = some '>' →
      normToken t = lowerStr t) ∧
    (∀ s r : String, normalize_hotkey s = some r → normalize_hotkey r = some r) := by
  refine ⟨by decide, ?_, ?_⟩
  · intro t h1 h2
    exact normToken_bracket_lower h1 h2
  · intro s r h
    unfold normalize_hotkey at h ⊢
    rcases Option.map_eq_some'.mp h with ⟨l, hl, rfl⟩
    rw [show (String.mk l).data = l from rfl, normalizeHotkeyChars_idem hl]
    rfl

/-- Witness for C4 at the uppercase bracketed token `"<F1>"` and the
already-normalized chord `"<ctrl>+<alt>+d"`. -/
theorem normalize_hotkey_canonical_idempotent_witness :
    normToken "<F1>".data = lowerStr "<F1>".data ∧
    normalize_hotkey "<ctrl>+<alt>+d" = some "<ctrl>+<alt>+d" :=
  ⟨normalize_hotkey_canonical_idempotent.2.1 "<F1>".data (by decide) (by decide),
   normalize_hotkey_canonical_idempotent.2.2 "ctrl+alt+d" "<ctrl>+<alt>+d" (by decide)⟩

/-! ### Claim theorems: config loading (C5) -/

/-- C5 counterexample: a malformed (non-boolean) string for `append_space`
does not fall back to that field's default: the default is `true` but the
loaded value is `false`. -/
theorem malformed_append_space_not_default :
    (load_config (some [("append_space", .str "maybe")])).append_space = false ∧
    defaultConfig.append_space = true := by
  constructor <;> decide

/-- C5 (amended): a missing file yields exactly the documented defaults; a
non-numeric string for `sample_rate` falls back to that field's default;
but a string value for `append_space` is interpreted as a truthiness test
against the recognized truthy strings, not replaced by the default. -/
theorem load_config_defaults_and_fallbacks :
    load_config none =
      { engine := "whisper", hotkey := "<ctrl>+<alt>+d", language := "nl",
        sample_rate := 16000, append_space := true, whisper_model := "small",
        whisper_device := "auto", whisper_compute_type := "int8" } ∧
    (∀ (data : List (String × TomlValue)) (s : String),
      tomlGet data "sample_rate" = some (.str s) → parsePyInt s.data = none →
      (load_config (some data)).sample_rate = 16000) ∧
    (∀ (data : List (String × TomlValue)) (s : String),
      tomlGet data "append_space" = some (.str s) →
      ((load_config (some data)).append_space = true ↔
        lowerStr (pyStrip s.data) ∈ truthyStrings)) := by
  refine ⟨by decide, ?_, ?_⟩
  · intro data s h hp
    show as_int (tomlGet data "sample_rate") defaultConfig.sample_rate = 16000
    rw [h]
    simp only [as_int, hp]
    rfl
  · intro data s h
    show as_bool (tomlGet data "append_space") defaultConfig.append_space = true ↔ _
    rw [h]
    show decide (lowerStr (pyStrip s.data) ∈ truthyStrings) = true ↔ _
    exact decide_eq_true_iff

/-- Witness for C5 at a non-numeric `sample_rate` and an unrecognized
`append_space` string. -/
theorem load_config_defaults_and_fallbacks_witness :
    (load_config (some [("sample_rate", TomlValue.str "abc")])).sample_rate = 16000 ∧
    ((load_config (some [("append_space", TomlValue.str "maybe")])).append_space = true ↔
      lowerStr (pyStrip ("maybe" : String).data) ∈ truthyStrings) :=
  ⟨load_config_defaults_and_fallbacks.2.1 [("sample_rate", TomlValue.str "abc")] "abc"
      (by decide) (by decide),
   load_config_defaults_and_fallbacks.2.2 [("append_space", TomlValue.str "maybe")] "maybe"
      (by decide)⟩

/-! ### Helper lemmas: decimal digits round-trip -/

theorem digitsVal_append (xs ys : List Char) (acc : Nat) :
    digitsVal acc (xs ++ ys) =
      match digitsVal acc xs with
      | some a => digitsVal a ys
      | none => none := by
  induction xs generalizing acc with
  | nil => rfl
  | cons c xs ih =>
    simp only [List.cons_append, digitsVal, List.append_eq]
    by_cases hc : 48 ≤ c.toNat ∧ c.toNat ≤ 57
    · rw [if_pos hc, if_pos hc, ih]
    · rw [if_neg hc, if_neg hc]

theorem digitsVal_natDigitsAux :
    ∀ (fuel n acc : Nat), n ≤ fuel →
      digitsVal acc (natDigitsAux fuel n) =
        some (acc * 10 ^ (natDigitsAux fuel n).length + n) := by
  intro fuel
  induction fuel with
  | zero =>
    intro n acc h
    have hn : n = 0 := by omega
    subst hn
    simp [natDigitsAux, digitsVal]
  | succ f ih =>
    intro n acc h
    cases n with
    | zero => simp [natDigitsAux, digitsVal]
    | succ m =>
      have hq : (m + 1) / 10 ≤ f := by
        have := Nat.div_lt_self (Nat.succ_pos m) (by omega : 1 < 10)
        omega
      rw [show natDigitsAux (f + 1) (m + 1) =
        natDigitsAux f ((m + 1) / 10) ++ [Char.ofNat (48 + (m + 1) % 10)] from rfl]
      rw [digitsVal_append, ih ((m + 1) / 10) acc hq]
      have hd : (Char.ofNat (48 + (m + 1) % 10)).toNat = 48 + (m + 1) % 10 :=
        char_toNat_ofNat _ (Or.inl (by omega))
      simp only [digitsVal]
      rw [if_pos (by rw [hd]; omega)]
      rw [hd]
      simp only [digitsVal, List.length_append, List.length_cons, List.length_nil]
      congr 1
      have hmod := Nat.div_add_mod (m + 1) 10
      have hpow : acc * 10 ^ ((natDigitsAux f ((m + 1) / 10)).length + (0 + 1)) =
          acc * 10 ^ (natDigitsAux f ((m + 1) / 10)).length * 10 := by
        rw [pow_succ]; ring
      rw [hpow]
      generalize acc * 10 ^ (natDigitsAux f ((m + 1) / 10)).length = A
      omega

theorem digitsVal_natDigits (n : Nat) : digitsVal 0 (natDigits n) = some n := by
  unfold natDigits
  rw [digitsVal_natDigitsAux n n 0 (Nat.le_refl n)]
  simp

theorem natDigitsAux_digits :
    ∀ (fuel n : Nat), ∀ c ∈ natDigitsAux fuel n, 48 ≤ c.toNat ∧ c.toNat ≤ 57 := by
  intro fuel
  induction fuel with
  | zero =>
    intro n c hc
    cases n <;> simp [natDigitsAux] at hc
  | succ f ih =>
    intro n c hc
    cases n with
    | zero => simp [natDigitsAux] at hc
    | succ m =>
      rw [show natDigitsAux (f + 1) (m + 1) =
        natDigitsAux f ((m + 1) / 10) ++ [Char.ofNat (48 + (m + 1) % 10)] from rfl] at hc
      rcases List.mem_append.mp hc with h | h
      · exact ih _ c h
      · simp only [List.mem_singleton] at h
        subst h
        rw [char_toNat_ofNat _ (Or.inl (by omega))]
        omega

theorem natDigits_ne_nil {n : Nat} (h : n ≠ 0) : natDigits n ≠ [] := by
  unfold natDigits
  cases n with
  | zero => exact absurd rfl h
  | succ m => simp [natDigitsAux]

theorem parseTomlInt_intRepr (n : Int) : parseTomlInt (intRepr n) = some n := by
  unfold intRepr
  by_cases h0 : n = 0
  · rw [if_pos h0, h0]
    decide
  · rw [if_neg h0]
    have habs : n.natAbs ≠ 0 := by omega
    have hne : natDigits n.natAbs ≠ [] := natDigits_ne_nil habs
    by_cases hneg : n < 0
    · rw [if_pos hneg]
      have hred : parseTomlInt ('-' :: natDigits n.natAbs) =
          (if (natDigits n.natAbs).isEmpty then none
           else (digitsVal 0 (natDigits n.natAbs)).map (fun k => -(k : Int))) := rfl
      rw [hred]
      rw [if_neg (by simpa [List.isEmpty_iff] using hne)]
      rw [digitsVal_natDigits]
      show some (-(n.natAbs : Int)) = some n
      congr 1
      omega
    · rw [if_neg hneg]
      obtain ⟨c, ds, hcd⟩ := List.exists_cons_of_ne_nil hne
      have hdig : 48 ≤ c.toNat ∧ c.toNat ≤ 57 := by
        apply natDigitsAux_digits n.natAbs n.natAbs c
        show c ∈ natDigits n.natAbs
        rw [hcd]
        exact List.mem_cons_self _ _
      rw [hcd]
      have hred : parseTomlInt (c :: ds) =
          (if c = '+' then
            (if ds.isEmpty then none else (digitsVal 0 ds).map (fun k => (k : Int)))
           else if c = '-' then
            (if ds.isEmpty then none else (digitsVal 0 ds).map (fun k => -(k : Int)))
           else (digitsVal 0 (c :: ds)).map (fun k => (k : Int))) := rfl
      rw [hred]
      rw [if_neg (by intro hc; rw [hc] at hdig; revert hdig; decide)]
      rw [if_neg (by intro hc; rw [hc] at hdig; revert hdig; decide)]
      rw [← hcd, digitsVal_natDigits]
      show some ((n.natAbs : Int)) = some n
      congr 1
      omega

theorem intRepr_head (n : Int) :
    ∃ c ds, intRepr n = c :: ds ∧ (c.toNat = 45 ∨ (48 ≤ c.toNat ∧ c.toNat ≤ 57)) := by
  unfold intRepr
  by_cases h0 : n = 0
  · rw [if_pos h0]
    exact ⟨'0', [], rfl, Or.inr (by decide)⟩
  · rw [if_neg h0]
    have habs : n.natAbs ≠ 0 := by omega
    have hne : natDigits n.natAbs ≠ [] := natDigits_ne_nil habs
    by_cases hneg : n < 0
    · rw [if_pos hneg]
      exact ⟨'-', natDigits n.natAbs, rfl, Or.inl (by decide)⟩
    · rw [if_neg hneg]
      obtain ⟨c, ds, hcd⟩ := List.exists_cons_of_ne_nil hne
      refine ⟨c, ds, hcd, Or.inr ?_⟩
      apply natDigitsAux_digits n.natAbs n.natAbs c
      show c ∈ natDigits n.natAbs
      rw [hcd]
      exact List.mem_cons_self _ _

theorem parseTomlValue_intRepr (n : Int) : parseTomlValue (intRepr n) = some (.int n) := by
  obtain ⟨c, ds, hcd, hc⟩ := intRepr_head n
  rw [hcd]
  have hred : parseTomlValue (c :: ds) =
      (if c = '"' then (parseBasicBody ds).map (fun l => TomlValue.str (String.mk l))
       else if c :: ds = "true".data then some (.bool true)
       else if c :: ds = "false".data then some (.bool false)
       else (parseTomlInt (c :: ds)).map .int) := rfl
  rw [hred]
  rw [if_neg (by intro hq; rw [hq] at hc; revert hc; decide)]
  rw [if_neg (by
    intro hq
    have : c = 't' := by
      have := congrArg (fun l => List.head? l) hq
      simpa using this
    rw [this] at hc
    revert hc
    decide)]
  rw [if_neg (by
    intro hq
    have : c = 'f' := by
      have := congrArg (fun l => List.head? l) hq
      simpa using this
    rw [this] at hc
    revert hc
    decide)]
  rw [← hcd, parseTomlInt_intRepr]
  rfl

/-! ### Helper lemmas: basic-string round-trip -/

theorem parseBasicBody_cons_plain {c : Char} (rest : List Char)
    (h2 : ¬ c = '"') (h1 : ¬ c = '\\') (hc : badControl c = false) :
    parseBasicBody (c :: rest) = (parseBasicBody rest).map (fun l => c :: l) := by
  rw [parseBasicBody.eq_def]
  dsimp only
  rw [if_neg h2, if_neg h1, if_neg (by simp [hc])]

theorem parseBasicBody_quoted (s : List Char) (h : ∀ c ∈ s, badControl c = false) :
    parseBasicBody (s.flatMap escSave ++ ['"']) = some s := by
  induction s with
  | nil => rfl
  | cons c s ih =>
    have hc : badControl c = false := h c (List.mem_cons_self _ _)
    have hs : ∀ x ∈ s, badControl x = false := fun x hx => h x (List.mem_cons_of_mem _ hx)
    rw [List.flatMap_cons]
    by_cases h1 : c = '\\'
    · subst h1
      show parseBasicBody ('\\' :: '\\' :: (s.flatMap escSave ++ ['"'])) = some ('\\' :: s)
      have hred : parseBasicBody ('\\' :: '\\' :: (s.flatMap escSave ++ ['"'])) =
          (parseBasicBody (s.flatMap escSave ++ ['"'])).map (fun l => '\\' :: l) := rfl
      rw [hred, ih hs]
      rfl
    · by_cases h2 : c = '"'
      · subst h2
        show parseBasicBody ('\\' :: '"' :: (s.flatMap escSave ++ ['"'])) = some ('"' :: s)
        have hred : parseBasicBody ('\\' :: '"' :: (s.flatMap escSave ++ ['"'])) =
            (parseBasicBody (s.flatMap escSave ++ ['"'])).map (fun l => '"' :: l) := rfl
        rw [hred, ih hs]
        rfl
      · have hesc : escSave c = [c] := by
          unfold escSave
          rw [if_neg h1, if_neg h2]
        rw [hesc]
        show parseBasicBody (c :: (s.flatMap escSave ++ ['"'])) = some (c :: s)
        rw [parseBasicBody_cons_plain _ h2 h1 hc, ih hs]
        rfl

theorem parseTomlValue_quoted (s : List Char) (h : ∀ c ∈ s, badControl c = false) :
    parseTomlValue (quoteValue s) = some (.str (String.mk s)) := by
  have hred : parseTomlValue (quoteValue s) =
      (parseBasicBody (s.flatMap escSave ++ ['"'])).map
        (fun l => TomlValue.str (String.mk l)) := rfl
  rw [hred, parseBasicBody_quoted s h]
  rfl

theorem tomlSafe_forall {s : String} (h : tomlSafe s = true) :
    ∀ c ∈ s.data, badControl c = false := by
  intro c hc
  have := List.all_eq_true.mp h c hc
  simpa using this

/-! ### The save/load round trip -/

theorem loadSavedConfig_eq (c : AppConfig) (hsafe : configSafe c = true) :
    loadSavedConfig c = some { c with engine := String.mk (lowerStr c.engine.data) } := by
  simp only [configSafe, Bool.and_eq_true] at hsafe
  obtain ⟨⟨⟨⟨⟨⟨⟨⟨hs1, hs2⟩, hs3⟩, hs4⟩, hs5⟩, hs6⟩, hs7⟩, hs8⟩, hs9⟩ := hsafe
  have e1 := parseTomlValue_quoted c.engine.data (tomlSafe_forall hs1)
  have e2 := parseTomlValue_quoted c.hotkey.data (tomlSafe_forall hs2)
  have e3 := parseTomlValue_quoted c.language.data (tomlSafe_forall hs3)
  have e4 := parseTomlValue_intRepr c.sample_rate
  have e5 : parseTomlValue (if c.append_space then "true".data else "false".data) =
      some (.bool c.append_space) := by
    cases hA : c.append_space <;> rfl
  have e6 := parseTomlValue_quoted c.whisper_model.data (tomlSafe_forall hs4)
  have e7 := parseTomlValue_quoted c.whisper_device.data (tomlSafe_forall hs5)
  have e8 := parseTomlValue_quoted c.whisper_compute_type.data (tomlSafe_forall hs6)
  have e9 := parseTomlValue_quoted c.assemblyai_api_key.data (tomlSafe_forall hs7)
  have e10 := parseTomlValue_quoted c.google_credentials_path.data (tomlSafe_forall hs8)
  have e11 := parseTomlValue_quoted c.gemini_api_key.data (tomlSafe_forall hs9)
  have hparse : parseSavedLines (save_config c) = some
      [("engine", TomlValue.str (String.mk c.engine.data)),
       ("hotkey", TomlValue.str (String.mk c.hotkey.data)),
       ("language", TomlValue.str (String.mk c.language.data)),
       ("sample_rate", TomlValue.int c.sample_rate),
       ("append_space", TomlValue.bool c.append_space),
       ("whisper_model", TomlValue.str (String.mk c.whisper_model.data)),
       ("whisper_device", TomlValue.str (String.mk c.whisper_device.data)),
       ("whisper_compute_type", TomlValue.str (String.mk c.whisper_compute_type.data)),
       ("assemblyai_api_key", TomlValue.str (String.mk c.assemblyai_api_key.data)),
       ("google_credentials_path", TomlValue.str (String.mk c.google_credentials_path.data)),
       ("gemini_api_key", TomlValue.str (String.mk c.gemini_api_key.data))] := by
    unfold parseSavedLines save_config
    simp only [List.mapM_cons, List.mapM_nil, e1, e2, e3, e4, e5, e6, e7, e8, e9, e10, e11,
      Option.map_some', Option.bind_eq_bind, Option.some_bind, Option.pure_def]
  unfold loadSavedConfig
  rw [hparse]
  rfl

/-! ### Claim theorems: save/load round trip (C6) -/

/-- C6 counterexample: a valid config (engine `"whisper"`) whose hotkey
string contains a newline does not round-trip — the saved file fails to
parse back, so loading does not return the config. -/
theorem save_load_newline_breaks :
    loadSavedConfig { hotkey := "a\nb" } = none ∧
    ¬ (loadSavedConfig { hotkey := "a\nb" } = some { hotkey := "a\nb" }) := by
  constructor <;> decide

/-- C6 (amended): for every config whose engine is one of the four
recognized (lowercase) names and whose string fields contain no control
characters forbidden in TOML basic strings, loading the saved file yields
the same config. -/
theorem save_load_round_trip (c : AppConfig)
    (heng : c.engine ∈ (["whisper", "assemblyai", "google", "gemini"] : List String))
    (hsafe : configSafe c = true) :
    loadSavedConfig c = some c := by
  rw [loadSavedConfig_eq c hsafe]
  congr 1
  have hlow : String.mk (lowerStr c.engine.data) = c.engine := by
    simp only [List.mem_cons, List.not_mem_nil, or_false] at heng
    rcases heng with h | h | h | h <;> rw [h] <;> decide
  rw [hlow]

/-- Witness for C6 at the default config. -/
theorem save_load_round_trip_witness :
    loadSavedConfig defaultConfig = some defaultConfig :=
  save_load_round_trip defaultConfig (by decide) (by decide)

end VoiceTyper
